import Mathlib

/-!
Verification of the flitz HTTP routing core (src/src/server.ts): the
request dispatcher, the middleware chain composition (`mergeHandler`),
the route table compilation (`compileAllWithMiddlewares`), the route
registration routine (`withMethod`), global middleware registration
(`flitz.use`) and the cached static file handler
(`createStaticHandlerCached` / `loadAllFiles`).

The embedding is shallow. A request carries the fields the core
inspects: `method`, `url` and `headers`. The observable behaviour of
handlers and middlewares is modelled as a trace of events: `call l`
records that the stage labelled `l` was invoked, `errorHandled e`
records that the configured error handler was invoked with failure
value `e` (failure values are abstracted to `Nat`). A middleware's
behaviour on a request is one of: resolve after calling `next()`,
resolve without calling `next()` (short-circuit), or reject with a
failure without calling `next()`. A path matcher is a function
`Request → Except Nat Bool`: `.error e` models a predicate that
throws, which the dispatcher's try/catch intercepts.
-/

/-- A request context: the fields of the Node `IncomingMessage` that the
flitz core reads (`req.method`, `req.url`), plus headers to express that
matching and dispatch do not depend on anything else. -/
structure Request where
  method : String
  url : String
  headers : List (String × String)
deriving DecidableEq, Repr

/-- Observable events of one dispatch: invocation of a stage (middleware
or terminal handler, identified by a numeric label) and invocation of
the configured error handler with a failure value. -/
inductive Event where
  | call (label : Nat)
  | errorHandled (e : Nat)
deriving DecidableEq, Repr

/-- A request handler, modelled by its observable behaviour: the trace
of events produced by running it, together with `some e` when its
promise rejects with failure `e` (and `none` when it resolves). -/
structure Handler where
  run : Request → List Event × Option Nat

/-- Result of running one middleware on a request: it resolved after
calling `next()`, resolved without calling `next()` (intentional
short-circuit), or rejected with a failure without calling `next()`. -/
inductive StageResult where
  | callNext
  | shortCircuit
  | fail (e : Nat)
deriving DecidableEq, Repr

/-- A middleware: a labelled stage whose control behaviour may depend on
the request. -/
structure MW where
  label : Nat
  behavior : Request → StageResult

/-- A terminal handler that records one `call` event and resolves or
rejects according to `outcome` (models a plain user handler passed to
route registration). -/
def plainHandler (label : Nat) (outcome : Request → Option Nat) : Handler :=
  ⟨fun req => ([Event.call label], outcome req)⟩

/-- Running the cursor-based chain of `mergeHandler` (server.ts
lines 552-569): `next()` takes the next middleware; a middleware that
resolves after calling `next()` continues the chain; one that resolves
without calling `next()` ends it; one that rejects is caught by
`.catch(handleError)`, which invokes the configured error handler.
When no middleware remains, the terminal handler runs, its rejection
likewise caught by `.catch(handleError)`. -/
def chainRun (handler : Handler) (middlewares : List MW) (req : Request) :
    List Event :=
  match middlewares with
  | [] =>
    let r := handler.run req
    r.1 ++ (match r.2 with
            | some e => [Event.errorHandled e]
            | none => [])
  | mw :: rest =>
    match mw.behavior req with
    | StageResult.callNext => Event.call mw.label :: chainRun handler rest req
    | StageResult.shortCircuit => [Event.call mw.label]
    | StageResult.fail e => [Event.call mw.label, Event.errorHandled e]

/-- `mergeHandler` (server.ts lines 547-571): wraps a handler with an
ordered middleware list into a single handler. The returned async
function itself always resolves (every failure inside the chain is
consumed by `.catch(handleError)`), hence the `none` rejection. -/
def mergeHandler (handler : Handler) (middlewares : List MW) : Handler :=
  ⟨fun req => (chainRun handler middlewares req, none)⟩

/-- Number of error-handler invocations recorded in a trace. -/
def errEvents (tr : List Event) : Nat :=
  tr.countP (fun ev => match ev with
                       | Event.errorHandled _ => true
                       | _ => false)

/-- JS `String#endsWith`, modelled as a suffix test on the character
list (Lean's builtin `String.endsWith` does not reduce in the kernel). -/
def strEndsWith (s p : String) : Bool := p.data.isSuffixOf s.data

/-- JS `String#startsWith`, modelled as a prefix test on the character
list. -/
def strStartsWith (s p : String) : Bool := p.data.isPrefixOf s.data

/-- Exact string path matcher `isPathValidByString` (server.ts
lines 523-525): `req.url === path`. Never throws. -/
def isPathValidByString (path : String) : Request → Except Nat Bool :=
  fun req => Except.ok (req.url == path)

/-- Pattern path matcher `isPathValidByRegex` (server.ts lines 519-521):
`path.test(req.url)`; the pattern is abstracted to its test predicate on
the url string. Never throws. -/
def isPathValidByRegex (test : String → Bool) : Request → Except Nat Bool :=
  fun req => Except.ok (test req.url)

/-- `createStaticPathValidator` (server.ts lines 515-517):
`req.url.startsWith(basePath)`. -/
def createStaticPathValidator (basePath : String) : Request → Except Nat Bool :=
  fun req => Except.ok (strStartsWith req.url basePath)

/-- One registered route as stored in a method bucket
(`RequestHandlerContext`, server.ts lines 245-248). -/
structure RequestHandlerContext where
  handler : Handler
  isPathValid : Request → Except Nat Bool

/-- `RequestHandlersGrouped` (server.ts line 250): the per-method route
table, a string-keyed map of buckets. -/
def RequestHandlersGrouped := String → Option (List RequestHandlerContext)

/-- The dispatcher's scan `bucket.find(ctx => ctx.isPathValid(req))`
(server.ts line 315): evaluates matchers in registration order,
stopping at the first `true` and propagating the first thrown
exception. Also returns how many matchers were evaluated, to state the
short-circuit property. -/
def scanBucket : List RequestHandlerContext → Request →
    Except Nat (Option RequestHandlerContext) × Nat
  | [], _ => (Except.ok none, 0)
  | ctx :: rest, req =>
    match ctx.isPathValid req with
    | Except.error e => (Except.error e, 1)
    | Except.ok true => (Except.ok (some ctx), 1)
    | Except.ok false =>
      let r := scanBucket rest req
      (r.1, r.2 + 1)

/-- Running a handler under the dispatcher's try/catch: a rejection of
the awaited handler is routed to the configured error handler. -/
def runCatch (h : Handler) (req : Request) : List Event :=
  let r := h.run req
  r.1 ++ (match r.2 with
          | some e => [Event.errorHandled e]
          | none => [])

/-- The dispatcher (the `flitz` request listener, server.ts
lines 313-325): look up the compiled bucket for the request's method;
scan it for the first matching route; run its handler, or the
not-found handler when the method has no bucket or no route matches;
any failure - a throwing matcher, a rejecting handler or a rejecting
not-found handler - is caught and passed to the configured error
handler. -/
def dispatch (compiledHandlers : RequestHandlersGrouped)
    (notFoundHandler : Handler) (req : Request) : List Event :=
  match compiledHandlers req.method with
  | none => runCatch notFoundHandler req
  | some bucket =>
    match (scanBucket bucket req).1 with
    | Except.error e => [Event.errorHandled e]
    | Except.ok (some ctx) => runCatch ctx.handler req
    | Except.ok none => runCatch notFoundHandler req

/-- `compileAllWithMiddlewares` (server.ts lines 458-478): with an empty
global middleware list it returns the raw grouped table itself;
otherwise it maps every bucket, wrapping each route's handler with the
full middleware list via `mergeHandler` and keeping its matcher. -/
def compileAllWithMiddlewares (groupedHandlers : RequestHandlersGrouped)
    (middlewares : List MW) : RequestHandlersGrouped :=
  if middlewares.isEmpty then groupedHandlers
  else fun method =>
    (groupedHandlers method).map (fun bucket =>
      bucket.map (fun ctx =>
        ⟨mergeHandler ctx.handler middlewares, ctx.isPathValid⟩))

/-- The mutable state of one server instance created by `createServer`
(server.ts lines 296-311): the raw grouped table, the accumulated
global middleware list and the compiled table the dispatcher reads. -/
structure ServerState where
  groupedHandlers : RequestHandlersGrouped
  globalMiddleWares : List MW
  compiledHandlers : RequestHandlersGrouped

/-- The state right after `createServer`: empty raw table, no global
middlewares, and `compiledHandlers` initialized to the (empty) raw
table (server.ts lines 303-304). -/
def initialState : ServerState :=
  ⟨fun _ => none, [], fun _ => none⟩

/-- `recompileHandlers` (server.ts lines 305-311): replace the compiled
table wholesale by recompiling the raw table with the current global
middleware list. -/
def recompileHandlers (s : ServerState) : ServerState :=
  { s with compiledHandlers :=
      compileAllWithMiddlewares s.groupedHandlers s.globalMiddleWares }

/-- A value passed where a middleware is expected: either an actual
middleware function or a value that is not a function. -/
inductive MWArg where
  | valid (mw : MW)
  | notFn

/-- `typeof mw === 'function'` on a middleware argument. -/
def isFnArg : MWArg → Bool
  | MWArg.valid _ => true
  | MWArg.notFn => false

/-- A value passed as the `path` argument of a registration call: a
string, a RegExp (abstracted to its test predicate on the url), a
predicate function, or a value of any other type. -/
inductive PathArg where
  | ofString (s : String)
  | ofRegex (test : String → Bool)
  | ofFunc (f : Request → Except Nat Bool)
  | notPath

/-- A value passed as the handler argument: a function or not. -/
inductive HandlerArg where
  | ofFunc (h : Handler)
  | notFn

/-- A value passed as `optionsOrMiddlewares`: an array of middlewares, a
single middleware function, an options record with an optional `use`
list, or a truthy value of some other type. -/
inductive OomArg where
  | arr (mws : List MWArg)
  | fn (mw : MW)
  | opts (use : Option (List MWArg))
  | notObj

/-- The path-kind test and validator selection of `withMethod`
(server.ts lines 575-583 test the path is a string, RegExp or function;
lines 644-652 pick the matching validator). Both inspect only the path
argument, so they are fused here: `none` models the `TypeError` thrown
for any other type of value. -/
def pathValidatorOf : PathArg → Option (Request → Except Nat Bool)
  | PathArg.ofFunc f => some f
  | PathArg.ofRegex test => some (isPathValidByRegex test)
  | PathArg.ofString s => some (isPathValidByString s)
  | PathArg.notPath => none

/-- Normalization of `optionsOrMiddlewares` to an options record
(server.ts lines 601-623): an array becomes `{use: array}`, a single
function becomes `{use: [fn]}`, a record is taken as is, an absent or
nil value becomes `{}`; a truthy value of any other type fails the
`typeof options !== 'object'` check. Returns the record's `use` list. -/
def normalizeOptions : Option OomArg → Except String (Option (List MWArg))
  | none => Except.ok none
  | some (OomArg.arr mws) => Except.ok (some mws)
  | some (OomArg.fn mw) => Except.ok (some [MWArg.valid mw])
  | some (OomArg.opts use) => Except.ok use
  | some OomArg.notObj =>
    Except.error "optionsOrMiddlewares must be an object or array"

/-- The `options.use?.length` guarded check that every entry of a
non-empty `use` list is a function (server.ts lines 624-628). -/
def useAllFunctions : Option (List MWArg) → Bool
  | none => true
  | some mws => if mws.isEmpty then true else mws.all isFnArg

/-- `options.use.map(mw => mw)`: the middlewares of the `use` list (all
entries are functions whenever this is reached). -/
def extractMWs : Option (List MWArg) → List MW
  | none => []
  | some mws => mws.filterMap (fun a => match a with
      | MWArg.valid mw => some mw
      | MWArg.notFn => none)

/-- `withMethod` (server.ts lines 573-661), the shared registration
routine behind every verb method. It validates the path, the handler
and the middleware options in source order - each failure throws a
`TypeError` before any state is touched - then wraps the handler with
the route-scoped middlewares when present, appends the
(handler, validator) pair to the method's bucket (initializing the
bucket when missing) and recompiles the compiled table. The result
pairs the thrown error (if any) with the state at return time. -/
def withMethod (method : String) (path : PathArg)
    (optionsOrMiddlewares : Option OomArg) (handlerArg : HandlerArg)
    (s : ServerState) : Except String Unit × ServerState :=
  match pathValidatorOf path with
  | none => (Except.error "path must be of type string, function or RegEx", s)
  | some isPathValid =>
    match handlerArg with
    | HandlerArg.notFn => (Except.error "handler must be a function", s)
    | HandlerArg.ofFunc handler =>
      match normalizeOptions optionsOrMiddlewares with
      | Except.error msg => (Except.error msg, s)
      | Except.ok use =>
        if useAllFunctions use = false then
          (Except.error "optionsOrMiddlewares must be an array of functions", s)
        else
          let routeMWs := extractMWs use
          let wrapped :=
            if routeMWs.isEmpty then handler
            else mergeHandler handler routeMWs
          let bucket := (s.groupedHandlers method).getD []
          let grouped' : RequestHandlersGrouped := fun m =>
            if m = method then some (bucket ++ [⟨wrapped, isPathValid⟩])
            else s.groupedHandlers m
          (Except.ok (), recompileHandlers { s with groupedHandlers := grouped' })

/-- `flitz.use` (server.ts lines 383-392): validate every argument is a
function, append them to the global middleware list in call order, and
recompile the compiled table. -/
def useMiddlewares (middlewares : List MWArg) (s : ServerState) :
    Except String Unit × ServerState :=
  if (middlewares.all isFnArg) = false then
    (Except.error "middlewares must be a list of functions", s)
  else
    (Except.ok (), recompileHandlers
      { s with globalMiddleWares :=
          s.globalMiddleWares ++ extractMWs (some middlewares) })

/-- One mutating call on the server: a route registration through a verb
method, or a `use()` call (with valid middleware functions). -/
inductive Op where
  | register (method : String) (path : PathArg)
      (optionsOrMiddlewares : Option OomArg) (handlerArg : HandlerArg)
  | use (mws : List MW)

/-- Apply one mutating call; a registration that throws leaves the state
as it was. -/
def applyOp (s : ServerState) : Op → ServerState
  | Op.register method path oom harg => (withMethod method path oom harg s).2
  | Op.use mws => (useMiddlewares (mws.map MWArg.valid) s).2

/-- Apply a sequence of mutating calls in order. -/
def applyOps : ServerState → List Op → ServerState
  | s, [] => s
  | s, op :: rest => applyOps (applyOp s op) rest

/-- The global middlewares accumulated by the `use()` calls of a call
sequence, flattened in insertion order. -/
def usedGlobals : List Op → List MW
  | [] => []
  | Op.use mws :: rest => mws ++ usedGlobals rest
  | Op.register _ _ _ _ :: rest => usedGlobals rest

/-! Static file serving (cache mode). The filesystem under `rootDir` is
modelled as a tree of named entries; file contents are byte lists. -/

/-- A filesystem entry: a regular file with its bytes, or a directory
with its child entries. -/
inductive FSEntry where
  | file (name : String) (data : List Nat)
  | dir (name : String) (entries : List FSEntry)

/-- `FileWithData` (server.ts line 34): the string-keyed in-memory map
of the cached static handler, with JS-object overwrite semantics. -/
def FileWithData := String → Option (List Nat)

/-- The empty map. -/
def emptyFiles : FileWithData := fun _ => none

/-- `files[key] = data`. -/
def setFile (files : FileWithData) (key : String) (data : List Nat) :
    FileWithData :=
  fun k => if k = key then some data else files k

/-- The `bpSuffix` of `loadAllFiles` (server.ts line 537): an extra "/"
unless the base path already ends in one. -/
def bpSuffix (basePath : String) : String :=
  if strEndsWith basePath "/" then "" else "/"

/-- Relative path of a child named `name` under relative directory
path `rel`, forward-slash separated (the model of
`relativePath(rootDir, fullPath).split(pathSep).join('/')`). -/
def relKey (rel name : String) : String :=
  if rel = "" then name else rel ++ "/" ++ name

/-- The key of the in-memory map for the file at relative path `rel`
(server.ts lines 537-540): `basePath + bpSuffix + relative path`. -/
def staticKey (basePath rel : String) : String :=
  basePath ++ bpSuffix basePath ++ rel

/-- `loadAllFiles` (server.ts lines 527-545): walk the directory
entries in listing order; recurse into directories; store each regular
file's bytes under its `staticKey`. `rel` is the relative path of the
directory being walked ("" at `rootDir`). -/
def loadAllFiles : List FSEntry → String → String → FileWithData →
    FileWithData
  | [], _, _, files => files
  | FSEntry.dir name entries :: rest, rel, basePath, files =>
    loadAllFiles rest rel basePath
      (loadAllFiles entries (relKey rel name) basePath files)
  | FSEntry.file name data :: rest, rel, basePath, files =>
    loadAllFiles rest rel basePath
      (setFile files (staticKey basePath (relKey rel name)) data)

/-- The regular files of a tree as (relative path, bytes) pairs, in the
order `loadAllFiles` stores them. -/
def filesOfTree : List FSEntry → String → List (String × List Nat)
  | [], _ => []
  | FSEntry.file name data :: rest, rel =>
    (relKey rel name, data) :: filesOfTree rest rel
  | FSEntry.dir name entries :: rest, rel =>
    filesOfTree entries (relKey rel name) ++ filesOfTree rest rel

/-- A response of the static handler: status code and body bytes. -/
structure StaticResponse where
  status : Nat
  body : List Nat
deriving DecidableEq, Repr

/-- `createStaticHandlerCached` (server.ts lines 498-513): build the
in-memory map once at registration time; on each request look the url
up in the map and respond 200 with the stored bytes on a hit (a stored
Buffer is truthy, even when empty), 404 with an empty body otherwise. -/
def createStaticHandlerCached (rootEntries : List FSEntry)
    (basePath : String) : Request → StaticResponse :=
  let files := loadAllFiles rootEntries "" basePath emptyFiles
  fun req =>
    match files req.url with
    | some data => ⟨200, data⟩
    | none => ⟨404, []⟩

/-! Helper lemmas about the middleware chain. -/

theorem chainRun_nil (h : Handler) (req : Request) :
    chainRun h [] req = runCatch h req := rfl

theorem chainRun_append_next (h : Handler) (pre rest : List MW)
    (req : Request)
    (hpre : ∀ mw ∈ pre, mw.behavior req = StageResult.callNext) :
    chainRun h (pre ++ rest) req
      = pre.map (fun mw => Event.call mw.label) ++ chainRun h rest req := by
  induction pre with
  | nil => simp
  | cons mw tail ih =>
    have hmw : mw.behavior req = StageResult.callNext :=
      hpre mw (List.mem_cons_self _ _)
    have ih' := ih (fun m hm => hpre m (List.mem_cons_of_mem _ hm))
    simp [chainRun, hmw, ih']

theorem errEvents_map_call (l : List MW) :
    errEvents (l.map (fun mw => Event.call mw.label)) = 0 := by
  induction l with
  | nil => rfl
  | cons x xs ih =>
    unfold errEvents at ih ⊢
    rw [List.map_cons, List.countP_cons, ih]
    rfl

/-- C2: a handler wrapped first with the route-scoped middlewares
`rs` and then with the global middlewares `gs` executes, on a request
where every stage calls `next()` and the terminal handler resolves,
exactly the stages `gs` in order, then `rs` in order, then the terminal
handler - the chain is `[global..., route-scoped..., handler]`, and
each stage's event precedes the next stage's event in the trace. -/
theorem middleware_chain_order (gs rs : List MW) (l : Nat)
    (outcome : Request → Option Nat) (req : Request)
    (hg : ∀ mw ∈ gs, mw.behavior req = StageResult.callNext)
    (hr : ∀ mw ∈ rs, mw.behavior req = StageResult.callNext)
    (ho : outcome req = none) :
    (mergeHandler (mergeHandler (plainHandler l outcome) rs) gs).run req
      = (gs.map (fun mw => Event.call mw.label)
          ++ rs.map (fun mw => Event.call mw.label)
          ++ [Event.call l], none) := by
  have h2 := chainRun_append_next (plainHandler l outcome) rs [] req hr
  have h1 := chainRun_append_next
    (mergeHandler (plainHandler l outcome) rs) gs [] req hg
  simp only [List.append_nil] at h1 h2
  have hx : chainRun (plainHandler l outcome) [] req = [Event.call l] := by
    simp [chainRun, runCatch, plainHandler, ho]
  have hy : chainRun (mergeHandler (plainHandler l outcome) rs) [] req
      = rs.map (fun mw => Event.call mw.label) ++ [Event.call l] := by
    simp only [chainRun_nil, runCatch, mergeHandler, List.append_nil]
    rw [h2, hx]
  show (chainRun (mergeHandler (plainHandler l outcome) rs) gs req, none) = _
  rw [h1, hy]
  simp [List.append_assoc]

/-- Witness for C2: globals [1, 2] and route-scoped [3] around handler
4 run in the order 1, 2, 3, 4. -/
theorem middleware_chain_order_witness :
    (mergeHandler
      (mergeHandler (plainHandler 4 (fun _ => none))
        [⟨3, fun _ => StageResult.callNext⟩])
      [⟨1, fun _ => StageResult.callNext⟩,
       ⟨2, fun _ => StageResult.callNext⟩]).run ⟨"GET", "/", []⟩
      = ([Event.call 1, Event.call 2, Event.call 3, Event.call 4], none) := by
  have h := middleware_chain_order
    [⟨1, fun _ => StageResult.callNext⟩, ⟨2, fun _ => StageResult.callNext⟩]
    [⟨3, fun _ => StageResult.callNext⟩] 4 (fun _ => none) ⟨"GET", "/", []⟩
    (by intro mw hmw; fin_cases hmw <;> rfl)
    (by intro mw hmw; fin_cases hmw; rfl)
    rfl
  simpa using h

/-- C4: if a middleware of the chain rejects instead of calling
`next()`, the trace consists of the preceding stages, the failing
stage, and exactly one error-handler invocation with that failure;
no later middleware and not the terminal handler is ever invoked. -/
theorem failing_middleware_stops_chain (h : Handler) (pre post : List MW)
    (f : MW) (e : Nat) (req : Request)
    (hpre : ∀ mw ∈ pre, mw.behavior req = StageResult.callNext)
    (hf : f.behavior req = StageResult.fail e) :
    (mergeHandler h (pre ++ f :: post)).run req
      = (pre.map (fun mw => Event.call mw.label)
          ++ [Event.call f.label, Event.errorHandled e], none)
    ∧ errEvents ((mergeHandler h (pre ++ f :: post)).run req).1 = 1 := by
  have h1 := chainRun_append_next h pre (f :: post) req hpre
  have h2 : chainRun h (f :: post) req
      = [Event.call f.label, Event.errorHandled e] := by
    simp [chainRun, hf]
  constructor
  · show (chainRun h (pre ++ f :: post) req, none) = _
    rw [h1, h2]
  · show errEvents (chainRun h (pre ++ f :: post) req) = 1
    rw [h1, h2]
    have h0 := errEvents_map_call pre
    unfold errEvents at h0 ⊢
    rw [List.countP_append, h0]
    rfl

/-- Witness for C4: middleware 1 calls next, middleware 2 fails with 7,
middleware 3 and the handler 9 never run; the error handler runs once. -/
theorem failing_middleware_stops_chain_witness :
    (mergeHandler (plainHandler 9 (fun _ => none))
      ([⟨1, fun _ => StageResult.callNext⟩]
        ++ ⟨2, fun _ => StageResult.fail 7⟩
          :: [⟨3, fun _ => StageResult.callNext⟩])).run ⟨"GET", "/", []⟩
      = ([Event.call 1, Event.call 2, Event.errorHandled 7], none)
    ∧ errEvents ((mergeHandler (plainHandler 9 (fun _ => none))
        ([⟨1, fun _ => StageResult.callNext⟩]
          ++ ⟨2, fun _ => StageResult.fail 7⟩
            :: [⟨3, fun _ => StageResult.callNext⟩])).run
              ⟨"GET", "/", []⟩).1 = 1 := by
  have h := failing_middleware_stops_chain (plainHandler 9 (fun _ => none))
    [⟨1, fun _ => StageResult.callNext⟩] [⟨3, fun _ => StageResult.callNext⟩]
    ⟨2, fun _ => StageResult.fail 7⟩ 7 ⟨"GET", "/", []⟩
    (by intro mw hmw; fin_cases hmw; rfl)
    rfl
  simpa using h

/-- C6: the matcher of a route registered with a string path `s`
returns `ok true` exactly when the request url equals `s`, and the
result depends only on the url - not on the method, headers or any
other request content. -/
theorem string_matcher_exact_url (s : String) (req : Request)
    (m' : String) (hs' : List (String × String)) :
    isPathValidByString s req = Except.ok (decide (req.url = s))
    ∧ isPathValidByString s req = isPathValidByString s ⟨m', req.url, hs'⟩ := by
  constructor
  · by_cases h : req.url = s <;> simp [isPathValidByString, h]
  · rfl

/-- C9: compiling with an empty global middleware list returns the raw
grouped table itself (the early return of `compileAllWithMiddlewares`),
so dispatch through the compiled table is dispatch through the raw
table; and a fresh server's compiled table is its (empty) raw table. -/
theorem compile_empty_identity (grouped : RequestHandlersGrouped) :
    compileAllWithMiddlewares grouped [] = grouped
    ∧ (∀ (nf : Handler) (req : Request),
        dispatch (compileAllWithMiddlewares grouped []) nf req
          = dispatch grouped nf req)
    ∧ initialState.compiledHandlers = initialState.groupedHandlers := by
  exact ⟨rfl, fun nf req => rfl, rfl⟩

/-! Helper lemmas about the dispatcher's bucket scan. -/

theorem scanBucket_skip (b1 rest : List RequestHandlerContext)
    (req : Request)
    (h1 : ∀ c ∈ b1, c.isPathValid req = Except.ok false) :
    scanBucket (b1 ++ rest) req
      = ((scanBucket rest req).1, (scanBucket rest req).2 + b1.length) := by
  induction b1 with
  | nil => simp
  | cons c tail ih =>
    have hc := h1 c (List.mem_cons_self _ _)
    have ih' := ih (fun x hx => h1 x (List.mem_cons_of_mem _ hx))
    simp [scanBucket, hc, ih', Prod.ext_iff]
    omega

theorem scanBucket_found (r : RequestHandlerContext)
    (b2 : List RequestHandlerContext) (req : Request)
    (hr : r.isPathValid req = Except.ok true) :
    scanBucket (r :: b2) req = (Except.ok (some r), 1) := by
  simp [scanBucket, hr]

theorem scanBucket_error (r : RequestHandlerContext)
    (b2 : List RequestHandlerContext) (req : Request) (e : Nat)
    (hr : r.isPathValid req = Except.error e) :
    scanBucket (r :: b2) req = (Except.error e, 1) := by
  simp [scanBucket, hr]

theorem scanBucket_none (bucket : List RequestHandlerContext)
    (req : Request)
    (h : ∀ c ∈ bucket, c.isPathValid req = Except.ok false) :
    scanBucket bucket req = (Except.ok none, bucket.length) := by
  induction bucket with
  | nil => rfl
  | cons c tail ih =>
    have hc := h c (List.mem_cons_self _ _)
    have ih' := ih (fun x hx => h x (List.mem_cons_of_mem _ hx))
    simp [scanBucket, hc, ih']

/-- C1: the dispatcher runs the handler of the first route of the
request method's compiled bucket whose matcher returns true, having
evaluated exactly the matchers up to and including that route (no
matcher after the first match, no later handler); and whenever the
method has no bucket or no route of its bucket matches, the not-found
handler runs instead. -/
theorem dispatch_first_match (compiled : RequestHandlersGrouped)
    (nf : Handler) (req : Request)
    (bucket b1 b2 : List RequestHandlerContext) (r : RequestHandlerContext)
    (hb : compiled req.method = some bucket)
    (hsplit : bucket = b1 ++ r :: b2)
    (h1 : ∀ c ∈ b1, c.isPathValid req = Except.ok false)
    (hr : r.isPathValid req = Except.ok true) :
    dispatch compiled nf req = runCatch r.handler req
    ∧ (scanBucket bucket req).2 = b1.length + 1
    ∧ (∀ (compiled2 : RequestHandlersGrouped) (nf2 : Handler)
         (req2 : Request),
        (∀ bucket2, compiled2 req2.method = some bucket2 →
          ∀ c ∈ bucket2, c.isPathValid req2 = Except.ok false) →
        dispatch compiled2 nf2 req2 = runCatch nf2 req2) := by
  have hscan : scanBucket bucket req = (Except.ok (some r), b1.length + 1) := by
    rw [hsplit, scanBucket_skip _ _ _ h1, scanBucket_found _ _ _ hr]
    simp [Nat.add_comm]
  refine ⟨?_, ?_, ?_⟩
  · simp [dispatch, hb, hscan]
  · rw [hscan]
  · intro compiled2 nf2 req2 hall
    cases hc : compiled2 req2.method with
    | none => simp [dispatch, hc]
    | some bucket2 =>
      have hs := scanBucket_none bucket2 req2 (hall bucket2 hc)
      simp [dispatch, hc, hs]

/-- Witness for C1: of three GET routes for "/a", "/b", "/b", a request
to "/b" runs the second route's handler (label 20), after evaluating
exactly two matchers. -/
theorem dispatch_first_match_witness :
    dispatch
      (fun m => if m = "GET" then
        some [⟨plainHandler 10 (fun _ => none), isPathValidByString "/a"⟩,
              ⟨plainHandler 20 (fun _ => none), isPathValidByString "/b"⟩,
              ⟨plainHandler 30 (fun _ => none), isPathValidByString "/b"⟩]
        else none)
      (plainHandler 99 (fun _ => none)) ⟨"GET", "/b", []⟩
      = [Event.call 20]
    ∧ (scanBucket
        [⟨plainHandler 10 (fun _ => none), isPathValidByString "/a"⟩,
         ⟨plainHandler 20 (fun _ => none), isPathValidByString "/b"⟩,
         ⟨plainHandler 30 (fun _ => none), isPathValidByString "/b"⟩]
        ⟨"GET", "/b", []⟩).2 = 2 := by
  have h := dispatch_first_match
    (fun m => if m = "GET" then
      some [⟨plainHandler 10 (fun _ => none), isPathValidByString "/a"⟩,
            ⟨plainHandler 20 (fun _ => none), isPathValidByString "/b"⟩,
            ⟨plainHandler 30 (fun _ => none), isPathValidByString "/b"⟩]
      else none)
    (plainHandler 99 (fun _ => none)) ⟨"GET", "/b", []⟩
    [⟨plainHandler 10 (fun _ => none), isPathValidByString "/a"⟩,
     ⟨plainHandler 20 (fun _ => none), isPathValidByString "/b"⟩,
     ⟨plainHandler 30 (fun _ => none), isPathValidByString "/b"⟩]
    [⟨plainHandler 10 (fun _ => none), isPathValidByString "/a"⟩]
    [⟨plainHandler 30 (fun _ => none), isPathValidByString "/b"⟩]
    ⟨plainHandler 20 (fun _ => none), isPathValidByString "/b"⟩
    rfl rfl
    (by intro c hc; fin_cases hc; rfl)
    rfl
  refine ⟨?_, ?_⟩
  · have h1 := h.1
    simpa [runCatch, plainHandler] using h1
  · simpa using h.2.1

/-- C10: when a route's matcher itself throws during the scan, the
dispatcher's try/catch routes the failure to the configured error
handler (the whole trace is that single invocation, so no route
handler runs) and no matcher after the throwing one is evaluated. -/
theorem dispatch_matcher_throws (compiled : RequestHandlersGrouped)
    (nf : Handler) (req : Request)
    (bucket b1 b2 : List RequestHandlerContext) (r : RequestHandlerContext)
    (e : Nat)
    (hb : compiled req.method = some bucket)
    (hsplit : bucket = b1 ++ r :: b2)
    (h1 : ∀ c ∈ b1, c.isPathValid req = Except.ok false)
    (hr : r.isPathValid req = Except.error e) :
    dispatch compiled nf req = [Event.errorHandled e]
    ∧ (scanBucket bucket req).2 = b1.length + 1 := by
  have hscan : scanBucket bucket req = (Except.error e, b1.length + 1) := by
    rw [hsplit, scanBucket_skip _ _ _ h1, scanBucket_error _ _ _ _ hr]
    simp [Nat.add_comm]
  exact ⟨by simp [dispatch, hb, hscan], by rw [hscan]⟩

/-- Witness for C10: a predicate route that throws 5 after one
non-matching route makes the dispatcher invoke the error handler with
5; two matchers are evaluated and no handler runs. -/
theorem dispatch_matcher_throws_witness :
    dispatch
      (fun m => if m = "GET" then
        some [⟨plainHandler 10 (fun _ => none), isPathValidByString "/a"⟩,
              ⟨plainHandler 20 (fun _ => none), fun _ => Except.error 5⟩,
              ⟨plainHandler 30 (fun _ => none), isPathValidByString "/b"⟩]
        else none)
      (plainHandler 99 (fun _ => none)) ⟨"GET", "/b", []⟩
      = [Event.errorHandled 5]
    ∧ (scanBucket
        [⟨plainHandler 10 (fun _ => none), isPathValidByString "/a"⟩,
         ⟨plainHandler 20 (fun _ => none), fun _ => Except.error 5⟩,
         ⟨plainHandler 30 (fun _ => none), isPathValidByString "/b"⟩]
        ⟨"GET", "/b", []⟩).2 = 2 := by
  have h := dispatch_matcher_throws
    (fun m => if m = "GET" then
      some [⟨plainHandler 10 (fun _ => none), isPathValidByString "/a"⟩,
            ⟨plainHandler 20 (fun _ => none), fun _ => Except.error 5⟩,
            ⟨plainHandler 30 (fun _ => none), isPathValidByString "/b"⟩]
      else none)
    (plainHandler 99 (fun _ => none)) ⟨"GET", "/b", []⟩
    [⟨plainHandler 10 (fun _ => none), isPathValidByString "/a"⟩,
     ⟨plainHandler 20 (fun _ => none), fun _ => Except.error 5⟩,
     ⟨plainHandler 30 (fun _ => none), isPathValidByString "/b"⟩]
    [⟨plainHandler 10 (fun _ => none), isPathValidByString "/a"⟩]
    [⟨plainHandler 30 (fun _ => none), isPathValidByString "/b"⟩]
    ⟨plainHandler 20 (fun _ => none), fun _ => Except.error 5⟩ 5
    rfl rfl
    (by intro c hc; fin_cases hc; rfl)
    rfl
  exact ⟨h.1, by simpa using h.2⟩

/-! Helper lemmas about registration and `use()` state transitions. -/

theorem extractMWs_map_valid (mws : List MW) :
    extractMWs (some (mws.map MWArg.valid)) = mws := by
  induction mws with
  | nil => rfl
  | cons x xs ih =>
    simp only [extractMWs] at ih ⊢
    simp [List.filterMap_cons, ih]

theorem withMethod_state (m : String) (p : PathArg) (o : Option OomArg)
    (harg : HandlerArg) (s : ServerState) :
    (withMethod m p o harg s).2.globalMiddleWares = s.globalMiddleWares
    ∧ ((withMethod m p o harg s).2 = s
       ∨ (withMethod m p o harg s).2.compiledHandlers
          = compileAllWithMiddlewares
              (withMethod m p o harg s).2.groupedHandlers
              (withMethod m p o harg s).2.globalMiddleWares) := by
  unfold withMethod
  split
  · exact ⟨rfl, Or.inl rfl⟩
  · split
    · exact ⟨rfl, Or.inl rfl⟩
    · split
      · exact ⟨rfl, Or.inl rfl⟩
      · split
        · exact ⟨rfl, Or.inl rfl⟩
        · exact ⟨rfl, Or.inr rfl⟩

theorem useMiddlewares_state (mws : List MW) (s : ServerState) :
    (useMiddlewares (mws.map MWArg.valid) s).2.globalMiddleWares
      = s.globalMiddleWares ++ mws
    ∧ (useMiddlewares (mws.map MWArg.valid) s).2.compiledHandlers
      = compileAllWithMiddlewares
          (useMiddlewares (mws.map MWArg.valid) s).2.groupedHandlers
          (useMiddlewares (mws.map MWArg.valid) s).2.globalMiddleWares := by
  have hall : ((mws.map MWArg.valid).all isFnArg) = true := by
    simp [List.all_map, isFnArg, Function.comp]
  unfold useMiddlewares
  rw [hall, if_neg (by decide : ¬ (true = false))]
  exact ⟨by simp [recompileHandlers, extractMWs_map_valid], rfl⟩

theorem applyOps_inv (ops : List Op) (s : ServerState)
    (hs : s.compiledHandlers
      = compileAllWithMiddlewares s.groupedHandlers s.globalMiddleWares) :
    (applyOps s ops).compiledHandlers
      = compileAllWithMiddlewares (applyOps s ops).groupedHandlers
          (applyOps s ops).globalMiddleWares
    ∧ (applyOps s ops).globalMiddleWares
      = s.globalMiddleWares ++ usedGlobals ops := by
  induction ops generalizing s with
  | nil => exact ⟨hs, by simp [usedGlobals, applyOps]⟩
  | cons op rest ih =>
    cases op with
    | register m p o h =>
      have hstep := withMethod_state m p o h s
      have hinv' : (withMethod m p o h s).2.compiledHandlers
          = compileAllWithMiddlewares
              (withMethod m p o h s).2.groupedHandlers
              (withMethod m p o h s).2.globalMiddleWares := by
        rcases hstep.2 with heq | hcomp
        · rw [heq]
          exact hs
        · exact hcomp
      obtain ⟨h1, h2⟩ := ih (applyOp s (Op.register m p o h)) hinv'
      refine ⟨h1, ?_⟩
      show (applyOps (applyOp s (Op.register m p o h)) rest).globalMiddleWares
        = s.globalMiddleWares ++ usedGlobals (Op.register m p o h :: rest)
      rw [h2]
      have hg : (applyOp s (Op.register m p o h)).globalMiddleWares
          = s.globalMiddleWares := hstep.1
      rw [hg]
      simp [usedGlobals]
    | use mws =>
      have hstep := useMiddlewares_state mws s
      obtain ⟨h1, h2⟩ := ih (applyOp s (Op.use mws)) hstep.2
      refine ⟨h1, ?_⟩
      show (applyOps (applyOp s (Op.use mws)) rest).globalMiddleWares
        = s.globalMiddleWares ++ usedGlobals (Op.use mws :: rest)
      rw [h2]
      have hg : (applyOp s (Op.use mws)).globalMiddleWares
          = s.globalMiddleWares ++ mws := hstep.1
      rw [hg]
      simp [usedGlobals]

/-- C3: after any sequence of registrations and `use()` calls starting
from a fresh server, the compiled table equals the raw grouped table
wrapped (once, from the raw handlers) with the complete accumulated
global middleware list, which is exactly the concatenation of all
`use()` arguments in insertion order. -/
theorem compiled_table_invariant (ops : List Op) :
    (applyOps initialState ops).compiledHandlers
      = compileAllWithMiddlewares
          (applyOps initialState ops).groupedHandlers
          (applyOps initialState ops).globalMiddleWares
    ∧ (applyOps initialState ops).globalMiddleWares = usedGlobals ops := by
  have h := applyOps_inv ops initialState rfl
  exact ⟨h.1, by simpa using h.2⟩

/-- C5 counterexample: registering a GET route with the empty string ""
as pathSpec does not fail - it returns successfully and appends a route
to the GET bucket (the source only checks `typeof path === 'string'`,
which the empty string satisfies). -/
theorem emptyString_registration_succeeds :
    (withMethod "GET" (PathArg.ofString "") none
      (HandlerArg.ofFunc (plainHandler 0 (fun _ => none))) initialState).1
      = Except.ok ()
    ∧ (((withMethod "GET" (PathArg.ofString "") none
        (HandlerArg.ofFunc (plainHandler 0 (fun _ => none)))
        initialState).2.groupedHandlers "GET").getD []).length = 1 := by
  exact ⟨rfl, rfl⟩

/-- C5 (amended): any string - including the empty string - any pattern
and any predicate function is accepted as pathSpec; a string pathSpec
`s` registers a route whose matcher is exact equality of the url with
`s`, appended to the method's bucket; a pathSpec of any other type
fails with a TypeError before any state mutation. -/
theorem string_path_registration (m s : String) (h : Handler)
    (st : ServerState) :
    (withMethod m (PathArg.ofString s) none (HandlerArg.ofFunc h) st).1
      = Except.ok ()
    ∧ (withMethod m (PathArg.ofString s) none
        (HandlerArg.ofFunc h) st).2.groupedHandlers m
      = some (((st.groupedHandlers m).getD [])
          ++ [⟨h, isPathValidByString s⟩])
    ∧ (withMethod m PathArg.notPath none (HandlerArg.ofFunc h) st)
      = (Except.error "path must be of type string, function or RegEx", st) := by
  refine ⟨rfl, ?_, rfl⟩
  show (recompileHandlers _).groupedHandlers m = _
  simp [recompileHandlers, extractMWs]

/-- C7: a registration call whose path is not a string, not a pattern
and not a function, or whose handler is not callable, throws a
TypeError and leaves the server state - raw table, global middlewares
and compiled table - exactly as it was. -/
theorem invalid_registration_no_mutation (m : String) (p : PathArg)
    (o : Option OomArg) (harg : HandlerArg) (st : ServerState)
    (hbad : p = PathArg.notPath ∨ harg = HandlerArg.notFn) :
    (∃ msg, (withMethod m p o harg st).1 = Except.error msg)
    ∧ (withMethod m p o harg st).2 = st := by
  rcases hbad with hp | hh
  · subst hp
    exact ⟨⟨"path must be of type string, function or RegEx", rfl⟩, rfl⟩
  · subst hh
    cases p with
    | notPath =>
      exact ⟨⟨"path must be of type string, function or RegEx", rfl⟩, rfl⟩
    | ofString s => exact ⟨⟨"handler must be a function", rfl⟩, rfl⟩
    | ofRegex t => exact ⟨⟨"handler must be a function", rfl⟩, rfl⟩
    | ofFunc f => exact ⟨⟨"handler must be a function", rfl⟩, rfl⟩

/-- Witness for C7: a registration with a non-path value fails and
leaves the fresh server state untouched. -/
theorem invalid_registration_no_mutation_witness :
    (∃ msg, (withMethod "GET" PathArg.notPath none
      (HandlerArg.ofFunc (plainHandler 0 (fun _ => none)))
      initialState).1 = Except.error msg)
    ∧ (withMethod "GET" PathArg.notPath none
        (HandlerArg.ofFunc (plainHandler 0 (fun _ => none)))
        initialState).2 = initialState :=
  invalid_registration_no_mutation "GET" PathArg.notPath none
    (HandlerArg.ofFunc (plainHandler 0 (fun _ => none))) initialState
    (Or.inl rfl)

/-! Helper lemmas about the static file cache. -/

theorem loadAllFiles_lookup (entries : List FSEntry) (rel bp : String)
    (f0 : FileWithData) (url : String) :
    loadAllFiles entries rel bp f0 url
      = ((filesOfTree entries rel).reverse.find?
          (fun p => staticKey bp p.1 == url)).elim (f0 url)
          (fun p => some p.2) := by
  match entries with
  | [] => simp [loadAllFiles, filesOfTree]
  | FSEntry.file name data :: rest =>
    have ih := loadAllFiles_lookup rest rel bp
      (setFile f0 (staticKey bp (relKey rel name)) data) url
    simp only [loadAllFiles]
    rw [ih]
    simp only [filesOfTree, List.reverse_cons, List.find?_append]
    cases hA : (filesOfTree rest rel).reverse.find?
        (fun p => staticKey bp p.1 == url) with
    | some q => simp [hA, Option.or]
    | none =>
      simp only [hA, Option.or, setFile, List.find?]
      by_cases hu : url = staticKey bp (relKey rel name)
      · simp [hu]
      · have hne : (staticKey bp (relKey rel name) == url) = false := by
          simp [Ne.symm hu]
        simp [hne, hu]
  | FSEntry.dir name sub :: rest =>
    have ih1 := loadAllFiles_lookup sub (relKey rel name) bp f0 url
    have ih2 := loadAllFiles_lookup rest rel bp
      (loadAllFiles sub (relKey rel name) bp f0) url
    simp only [loadAllFiles]
    rw [ih2, ih1]
    simp only [filesOfTree, List.reverse_append, List.find?_append]
    cases hA : (filesOfTree rest rel).reverse.find?
        (fun p => staticKey bp p.1 == url) with
    | some q => simp [hA, Option.or]
    | none => simp [hA, Option.or]

theorem staticKey_inj (bp r1 r2 : String)
    (h : staticKey bp r1 = staticKey bp r2) : r1 = r2 := by
  have hd := congrArg String.data h
  simp only [staticKey, String.data_append] at hd
  exact String.ext (List.append_cancel_left hd)

theorem keys_nodup_unique (l : List (String × List Nat))
    (hn : (l.map Prod.fst).Nodup) (k : String) (v w : List Nat)
    (hv : (k, v) ∈ l) (hw : (k, w) ∈ l) : v = w := by
  induction l with
  | nil => cases hv
  | cons x t ih =>
    rw [List.map_cons, List.nodup_cons] at hn
    rcases List.mem_cons.mp hv with hv1 | hv2
    · rcases List.mem_cons.mp hw with hw1 | hw2
      · exact congrArg Prod.snd (hv1.trans hw1.symm)
      · exfalso
        apply hn.1
        have hx : x.1 = k := by rw [← hv1]
        rw [hx]
        exact List.mem_map.mpr ⟨(k, w), hw2, rfl⟩
    · rcases List.mem_cons.mp hw with hw1 | hw2
      · exfalso
        apply hn.1
        have hx : x.1 = k := by rw [← hw1]
        rw [hx]
        exact List.mem_map.mpr ⟨(k, v), hv2, rfl⟩
      · exact ih hn.2 hv2 hw2

/-- C8: with the static provider in cache mode, the map built at
registration time has exactly one key per regular file under the root
- `basePath + "/" + relative path` (no extra slash when `basePath`
ends in "/"), bound to the file's exact bytes; a GET request whose url
is such a key gets 200 with exactly those bytes; a url under
`basePath` that is no key gets 404 from the static handler itself -
the route's `startsWith` validator matches, so the dispatcher runs the
static handler and never the global not-found handler. -/
theorem staticCache_spec (bp : String) (entries : List FSEntry)
    (hnodup : ((filesOfTree entries "").map Prod.fst).Nodup) :
    (∀ url d, loadAllFiles entries "" bp emptyFiles url = some d ↔
       ∃ rel, (rel, d) ∈ filesOfTree entries "" ∧ url = staticKey bp rel)
    ∧ (∀ (req : Request) (rel : String) (d : List Nat),
        (rel, d) ∈ filesOfTree entries "" → req.url = staticKey bp rel →
        createStaticHandlerCached entries bp req = ⟨200, d⟩)
    ∧ (∀ req : Request, strStartsWith req.url bp = true →
        loadAllFiles entries "" bp emptyFiles req.url = none →
        createStaticHandlerCached entries bp req = ⟨404, []⟩)
    ∧ (∀ (hst nf : Handler) (req : Request), req.method = "GET" →
        strStartsWith req.url bp = true →
        dispatch (fun m => if m = "GET"
            then some [⟨hst, createStaticPathValidator bp⟩] else none)
          nf req = runCatch hst req) := by
  have hiff : ∀ url d, loadAllFiles entries "" bp emptyFiles url = some d ↔
      ∃ rel, (rel, d) ∈ filesOfTree entries "" ∧ url = staticKey bp rel := by
    intro url d
    rw [loadAllFiles_lookup]
    constructor
    · intro h
      cases hA : (filesOfTree entries "").reverse.find?
          (fun p => staticKey bp p.1 == url) with
      | none =>
        rw [hA] at h
        exact absurd h (by simp [emptyFiles])
      | some q =>
        rw [hA] at h
        simp only [Option.elim, Option.some.injEq] at h
        have hqmem : q ∈ filesOfTree entries "" :=
          List.mem_reverse.mp (List.mem_of_find?_eq_some hA)
        have hqpred : (staticKey bp q.1 == url) = true := by
          simpa using List.find?_some hA
        refine ⟨q.1, ?_, (eq_of_beq hqpred).symm⟩
        rw [← h]
        simpa using hqmem
    · rintro ⟨rel, hmem, hurl⟩
      have hsome : ((filesOfTree entries "").reverse.find?
          (fun p => staticKey bp p.1 == url)).isSome := by
        apply List.find?_isSome.mpr
        refine ⟨(rel, d), List.mem_reverse.mpr hmem, ?_⟩
        simp [hurl]
      obtain ⟨q, hq⟩ := Option.isSome_iff_exists.mp hsome
      have hqpred : (staticKey bp q.1 == url) = true := by
        simpa using List.find?_some hq
      have hqmem : q ∈ filesOfTree entries "" :=
        List.mem_reverse.mp (List.mem_of_find?_eq_some hq)
      have hq1 : q.1 = rel :=
        staticKey_inj bp q.1 rel ((eq_of_beq hqpred).trans hurl)
      have hq2 : q.2 = d := by
        apply keys_nodup_unique (filesOfTree entries "") hnodup rel q.2 d ?_ hmem
        rw [← hq1]
        simpa using hqmem
      rw [hq]
      simp [Option.elim, hq2]
  refine ⟨hiff, ?_, ?_, ?_⟩
  · intro req rel d hmem hurl
    have h := (hiff req.url d).mpr ⟨rel, hmem, hurl⟩
    simp [createStaticHandlerCached, h]
  · intro req hsw hnone
    simp [createStaticHandlerCached, hnone]
  · intro hst nf req hm hsw
    have hv : createStaticPathValidator bp req = Except.ok true := by
      simp [createStaticPathValidator, hsw]
    simp [dispatch, hm, scanBucket, hv]

/-- Witness for C8: a root with `a.txt` ([97]) and `sub/b.txt` ([98])
under basePath "/static": a GET to /static/sub/b.txt gets 200 with
[98], a GET to /static/missing.txt gets 404. -/
theorem staticCache_spec_witness :
    createStaticHandlerCached
      [FSEntry.file "a.txt" [97],
       FSEntry.dir "sub" [FSEntry.file "b.txt" [98]]] "/static"
      ⟨"GET", "/static/sub/b.txt", []⟩ = ⟨200, [98]⟩
    ∧ createStaticHandlerCached
      [FSEntry.file "a.txt" [97],
       FSEntry.dir "sub" [FSEntry.file "b.txt" [98]]] "/static"
      ⟨"GET", "/static/missing.txt", []⟩ = ⟨404, []⟩ := by
  have hlist : filesOfTree
      [FSEntry.file "a.txt" [97],
       FSEntry.dir "sub" [FSEntry.file "b.txt" [98]]] ""
      = [("a.txt", [97]), ("sub/b.txt", [98])] := by
    simp [filesOfTree, relKey]
  have h := staticCache_spec "/static"
    [FSEntry.file "a.txt" [97], FSEntry.dir "sub" [FSEntry.file "b.txt" [98]]]
    (by rw [hlist]; decide)
  refine ⟨?_, ?_⟩
  · exact h.2.1 ⟨"GET", "/static/sub/b.txt", []⟩ "sub/b.txt" [98]
      (by rw [hlist]; decide) (by decide)
  · exact h.2.2.1 ⟨"GET", "/static/missing.txt", []⟩ (by decide)
      (by rw [loadAllFiles_lookup, hlist]; decide)
